import Mathlib

/-!
Shallow embedding of the `abe_policy` crate: the policy registry
(`src/policy.rs`), the access-policy expression language and its parser
(`src/access_policy.rs`), and the error taxonomy (`src/error.rs`).

Machine integers (`u32`) are modelled as `Nat`: every reachable policy
state keeps `last_attribute_value ≤ max_attribute_creations`, so no
increment performed by the code can wrap a `u32`, and `Nat` arithmetic
agrees with the source on all states the theorems quantify over.
Rust `HashMap`s are modelled as association lists with lookup and
insert-or-overwrite operations; no claim depends on iteration order.
-/

deriving instance DecidableEq for Except

/-- An attribute is identified by its axis name and its own name.
Modelled from the spec: the file declaring `Attribute` (attribute.rs) is
absent from the sources; the spec describes it as an immutable
`(axis, name)` pair. -/
structure Attribute where
  axis : String
  name : String
deriving DecidableEq

/-- Textual form of an attribute, used in error payloads. Modelled from the
spec: attribute.rs (with its Display implementation) is absent from the
sources. -/
def Attribute.toText (a : Attribute) : String :=
  a.axis ++ "::" ++ a.name

/-- Hint about which kind of encryption to use (policy.rs). -/
inductive EncryptionHint where
  | Hybridized
  | Classic
deriving DecidableEq

/-- Attribute name with its encryption hint (policy.rs; source spelling of
the struct name kept). -/
structure AxisAttributePorperties where
  name : String
  encryption_hint : EncryptionHint
deriving DecidableEq

/-- A policy axis: name, ordered attribute properties, hierarchical flag
(policy.rs). -/
structure PolicyAxis where
  name : String
  attributes_properties : List AxisAttributePorperties
  hierarchical : Bool
deriving DecidableEq

/-- Number of attributes of an axis (policy.rs, `PolicyAxis::len`). -/
def PolicyAxis.len (axis : PolicyAxis) : Nat :=
  axis.attributes_properties.length

/-- Per-axis data stored in a policy (policy.rs). -/
structure PolicyAxesParameters where
  attribute_names : List String
  is_hierarchical : Bool
deriving DecidableEq

/-- Per-attribute data stored in a policy (policy.rs). -/
structure PolicyAttributesParameters where
  values : List Nat
  encryption_hint : EncryptionHint
deriving DecidableEq

/-- Policy schema version (policy.rs). -/
inductive PolicyVersion where
  | V1
deriving DecidableEq

/-- Association-list model of `HashMap` lookup. -/
def alookup {α β : Type} [DecidableEq α] (k : α) : List (α × β) → Option β
  | [] => none
  | (k', v) :: rest => if k' = k then some v else alookup k rest

/-- Association-list model of `HashMap` insert (overwrite if present). -/
def ainsert {α β : Type} [DecidableEq α] (k : α) (v : β) :
    List (α × β) → List (α × β)
  | [] => [(k, v)]
  | (k', v') :: rest => if k' = k then (k, v) :: rest else (k', v') :: ainsert k v rest

/-- The policy registry (policy.rs, struct `Policy`). -/
structure Policy where
  version : PolicyVersion
  last_attribute_value : Nat
  max_attribute_creations : Nat
  axes : List (String × PolicyAxesParameters)
  attributes : List (Attribute × PolicyAttributesParameters)
deriving DecidableEq

/-- The legacy policy schema (policy.rs, struct `LegacyPolicy`): no version
tag, attribute histories without encryption hints. -/
structure LegacyPolicy where
  last_attribute_value : Nat
  max_attribute_creations : Nat
  axes : List (String × PolicyAxesParameters)
  attributes : List (Attribute × List Nat)

/-- The crate error type (error.rs). The `InvalidAxis` and
`DeserializationError` variants are used by access_policy.rs and policy.rs
but their declarations are missing from the copy of error.rs in the
sources; they are modelled from the spec's error taxonomy. The payload of
`DeserializationError` is the current-schema decoder error, kept as text. -/
inductive Error where
  | AttributeNotFound (s : String)
  | MissingAttribute (item : Option String) (axis_name : Option String)
  | MissingAxis
  | UnsupportedOperator (s : String)
  | CapacityOverflow
  | ExistingPolicy (s : String)
  | InvalidBooleanExpression (s : String)
  | InvalidAttribute (s : String)
  | InvalidAxis (s : String)
  | DeserializationError (s : String)
deriving DecidableEq

/-- Policy.new (policy.rs). -/
def Policy.new (nb_creations : Nat) : Policy :=
  { version := .V1
    last_attribute_value := 0
    max_attribute_creations := nb_creations
    axes := []
    attributes := [] }

/-- Policy.remaining_attribute_creations (policy.rs). -/
def Policy.remaining_attribute_creations (p : Policy) : Nat :=
  p.max_attribute_creations - p.last_attribute_value

/-- The attribute-registration loop of `Policy::add_axis` (policy.rs,
lines 224-238). On the defensive duplicate-attribute error the Rust method
returns with `self.last_attribute_value` already incremented (including
for the duplicate itself) and the previously processed attributes already
inserted; the error value carries that partial state together with the
offending attribute. -/
def addAxisLoop (axisName : String) :
    List AxisAttributePorperties → Nat →
    List (Attribute × PolicyAttributesParameters) → List String →
    Except (Nat × List (Attribute × PolicyAttributesParameters) × Attribute)
      (Nat × List (Attribute × PolicyAttributesParameters) × List String)
  | [], last, attrs, names => .ok (last, attrs, names)
  | properties :: rest, last, attrs, names =>
    let last' := last + 1
    let names' := names ++ [properties.name]
    let attr : Attribute := { axis := axisName, name := properties.name }
    if (alookup attr attrs).isSome then
      .error (last', attrs, attr)
    else
      addAxisLoop axisName rest last'
        (ainsert attr
          { values := [last'], encryption_hint := properties.encryption_hint } attrs)
        names'

/-- Policy.add_axis (policy.rs, lines 215-249). Returns the post-call state
together with the result, since the Rust method mutates `self` in place
(and, on the duplicate-attribute error, leaves partial mutations). -/
def Policy.add_axis (self : Policy) (axis : PolicyAxis) : Policy × Except Error Unit :=
  if axis.attributes_properties.length >
      self.max_attribute_creations - self.last_attribute_value then
    (self, .error .CapacityOverflow)
  else if (alookup axis.name self.axes).isSome then
    (self, .error (.ExistingPolicy axis.name))
  else
    match addAxisLoop axis.name axis.attributes_properties self.last_attribute_value
        self.attributes [] with
    | .error (last', attrs', attr) =>
      ({ self with last_attribute_value := last', attributes := attrs' },
        .error (.ExistingPolicy attr.toText))
    | .ok (last', attrs', axis_attributes) =>
      ({ self with
          last_attribute_value := last'
          attributes := attrs'
          axes := ainsert axis.name
            { attribute_names := axis_attributes, is_hierarchical := axis.hierarchical }
            self.axes },
        .ok ())

/-- Policy.rotate (policy.rs, lines 253-263). -/
def Policy.rotate (self : Policy) (attr : Attribute) : Policy × Except Error Unit :=
  if self.last_attribute_value = self.max_attribute_creations then
    (self, .error .CapacityOverflow)
  else
    match alookup attr self.attributes with
    | some attribute_parameters =>
      ({ self with
          last_attribute_value := self.last_attribute_value + 1
          attributes := ainsert attr
            { attribute_parameters with
                values := attribute_parameters.values ++ [self.last_attribute_value + 1] }
            self.attributes },
        .ok ())
    | none => (self, .error (.AttributeNotFound attr.toText))

/-- Policy.attribute_values (policy.rs): full history, most recent first. -/
def Policy.attribute_values (p : Policy) (attr : Attribute) :
    Except Error (List Nat) :=
  match alookup attr p.attributes with
  | some ps => .ok ps.values.reverse
  | none => .error (.AttributeNotFound attr.toText)

/-- Policy.attribute_current_value (policy.rs). The Rust code indexes
`values[values.len() - 1]`, which aborts on an empty history; the embedding
reads the same cell through `getD`, and the reachability invariant (C9)
shows the index is always in bounds. -/
def Policy.attribute_current_value (p : Policy) (attr : Attribute) :
    Except Error Nat :=
  match alookup attr p.attributes with
  | some ps => .ok (ps.values.getD (ps.values.length - 1) 0)
  | none => .error (.AttributeNotFound attr.toText)

/-- Policy.parse_and_convert (policy.rs, lines 154-186). The two serde_json
decoders are passed as parameters, since serde_json is an external crate;
bytes are modelled as a list of numbers and decoder errors as text. -/
def Policy.parse_and_convert
    (decodePolicy : List Nat → Except String Policy)
    (decodeLegacy : List Nat → Except String LegacyPolicy)
    (bytes : List Nat) : Except Error Policy :=
  match decodePolicy bytes with
  | .ok policy => .ok policy
  | .error e =>
    match decodeLegacy bytes with
    | .ok policy =>
      .ok { version := .V1
            max_attribute_creations := policy.max_attribute_creations
            last_attribute_value := policy.last_attribute_value
            axes := policy.axes
            attributes := policy.attributes.map
              (fun kv => (kv.1, { values := kv.2, encryption_hint := .Classic })) }
    | .error _ => .error (.DeserializationError e)

/-- Policy states reachable from `Policy::new` through any sequence of
`add_axis` and `rotate` calls, successful or failing. -/
inductive Reachable : Policy → Prop
  | new (n : Nat) : Reachable (Policy.new n)
  | add {p : Policy} (axis : PolicyAxis) : Reachable p → Reachable (p.add_axis axis).1
  | rot {p : Policy} (attr : Attribute) : Reachable p → Reachable (p.rotate attr).1

/-- The access-policy boolean AST (access_policy.rs). -/
inductive AccessPolicy where
  | Attr (a : Attribute)
  | And (l r : AccessPolicy)
  | Or (l r : AccessPolicy)
  | All
deriving DecidableEq

/-- The hierarchical loop of `to_attribute_combinations` (access_policy.rs,
lines 406-411): emit one singleton combination per stored axis attribute
name, stopping (without emitting) at the first name equal to the given
attribute's name. -/
def subAttributes (axis attrName : String) : List String → List (List Attribute)
  | [] => []
  | n :: rest =>
    if n = attrName then []
    else [{ axis := axis, name := n }] :: subAttributes axis attrName rest

/-- AccessPolicy.to_attribute_combinations (access_policy.rs, lines
392-445). -/
def AccessPolicy.to_attribute_combinations (ap : AccessPolicy) (policy : Policy)
    (follow_hierarchical_axes : Bool) : Except Error (List (List Attribute)) :=
  match ap with
  | .Attr attr =>
    match alookup attr.axis policy.axes with
    | none => .error (.InvalidAxis attr.axis)
    | some axis_parameters =>
      .ok ([attr] ::
        (if axis_parameters.is_hierarchical && follow_hierarchical_axes then
          subAttributes attr.axis attr.name axis_parameters.attribute_names
        else []))
  | .And ap_left ap_right => do
    let combinations_left ←
      ap_left.to_attribute_combinations policy follow_hierarchical_axes
    let combinations_right ←
      ap_right.to_attribute_combinations policy follow_hierarchical_axes
    pure ((combinations_left.map
      (fun value_left => combinations_right.map
        (fun value_right => value_left ++ value_right))).flatten)
  | .Or ap_left ap_right => do
    let combinations_left ←
      ap_left.to_attribute_combinations policy follow_hierarchical_axes
    let combinations_right ←
      ap_right.to_attribute_combinations policy follow_hierarchical_axes
    pure (combinations_left ++ combinations_right)
  | .All => .ok [[]]

/-- Recursion core of `splitOnSub`, structurally recursive on a fuel bound
so that concrete evaluations reduce inside the kernel. The fuel never runs
out when it starts at the length of the input: a separator match consumes
at least one character. -/
def splitGo (sep : List Char) : Nat → List Char → List (List Char)
  | _, [] => [[]]
  | 0, xs => [xs]
  | f + 1, x :: rest =>
    if List.isPrefixOf sep (x :: rest) then
      [] :: splitGo sep f (List.drop (sep.length - 1) rest)
    else
      match splitGo sep f rest with
      | [] => [[x]]
      | ys :: tail => (x :: ys) :: tail

/-- Rust `str::split` on a separator substring, over lists of characters
(all separators used by the source are nonempty). -/
def splitOnSub (sep : List Char) (xs : List Char) : List (List Char) :=
  splitGo sep xs.length xs

/-- Rust `str::trim` over lists of characters. -/
def trimChars (xs : List Char) : List Char :=
  ((xs.dropWhile Char.isWhitespace).reverse.dropWhile Char.isWhitespace).reverse

/-- Rebuilding loop of the trim closure in `sanitize_spaces`
(access_policy.rs, lines 158-168), parts after the first: the separator is
put back between consecutive parts. -/
def joinTail (sep : List Char) : List (List Char) → List Char
  | [] => []
  | [s] => s
  | s :: rest => s ++ sep ++ joinTail sep rest

/-- Rebuilding loop of the trim closure (access_policy.rs, lines 158-168):
an empty first part stands for a leading separator. -/
def joinParts (sep : List Char) : List (List Char) → List Char
  | [] => []
  | s :: rest =>
    if s = [] then sep ++ joinTail sep rest
    else if rest = [] then s
    else s ++ sep ++ joinTail sep rest

/-- The trim closure of `sanitize_spaces` (access_policy.rs, lines
151-170): split on the separator, trim every part, rejoin. -/
def trimClosure (expr sep : List Char) : List Char :=
  joinParts sep ((splitOnSub sep expr).map trimChars)

/-- AccessPolicy.sanitize_spaces (access_policy.rs, lines 150-179). -/
def sanitize_spaces (expr : List Char) : List Char :=
  List.foldl trimClosure expr
    ["(".toList, ")".toList, "||".toList, "&&".toList, "::".toList]

/-- Rust `str::find` of a substring: index of its first occurrence. -/
def findSub (sep : List Char) : List Char → Option Nat
  | [] => if sep = [] then some 0 else none
  | x :: rest =>
    if List.isPrefixOf sep (x :: rest) then some 0
    else (findSub sep rest).map (· + 1)

/-- Rust `str::contains` of a substring. -/
def containsSub (sep xs : List Char) : Bool :=
  (findSub sep xs).isSome

/-- Depth-counting loop of `find_next_parenthesis` (access_policy.rs, lines
121-141): index where the parenthesis count first goes negative. -/
def fnpLoop : List Char → Int → Nat → Option Nat
  | [], _, _ => none
  | c :: rest, count, index =>
    let count' := if c = '(' then count + 1 else if c = ')' then count - 1 else count
    if count' < 0 then some index else fnpLoop rest count' (index + 1)

/-- AccessPolicy.find_next_parenthesis (access_policy.rs, lines 121-141). -/
def find_next_parenthesis (boolean_expression : List Char) : Except Error Nat :=
  match fnpLoop boolean_expression 0 0 with
  | some index => .ok index
  | none => .error (.InvalidBooleanExpression
      ("Missing closing parenthesis in boolean expression " ++
        String.mk boolean_expression))

/-- AccessPolicy.decompose_expression (access_policy.rs, lines 188-240):
split into a left part, an optional 2-character operator susbstring and an
optional right part. When the character at the split position is a closing
parenthesis the operator is read after it. -/
def decompose_expression (boolean_expression : List Char) (split_position : Nat) :
    Except Error (List Char × Option (List Char) × Option (List Char)) :=
  if split_position > boolean_expression.length then
    .error (.InvalidBooleanExpression (String.mk boolean_expression))
  else
    let left_part := boolean_expression.take split_position
    if split_position = boolean_expression.length then
      .ok (left_part, none, none)
    else
      let next_char := boolean_expression.getD split_position (Char.ofNat 0)
      let split_position' := if next_char = ')' then split_position + 1 else split_position
      if split_position' = boolean_expression.length then
        .ok (left_part, none, none)
      else if split_position' + 2 > boolean_expression.length then
        .error (.InvalidBooleanExpression (String.mk boolean_expression))
      else
        .ok (left_part,
          some ((boolean_expression.drop split_position').take 2),
          some (boolean_expression.drop (split_position' + 2)))

/-- Combination step of `from_boolean_expression` (access_policy.rs, lines
300-308 and 349-358): the parse results of the two operands are combined
by the operator, the left operand's error propagating first (as with the
Rust question-mark operator); `none` stands for fuel exhaustion of the
embedding. -/
def applyOperator (op : List Char) :
    Option (Except Error AccessPolicy) → Option (Except Error AccessPolicy) →
    Option (Except Error AccessPolicy)
  | none, _ => none
  | some (.error e), _ => some (.error e)
  | some (.ok _), none => none
  | some (.ok _), some (.error e) => some (.error e)
  | some (.ok ap1), some (.ok ap2) =>
    if op = "&&".toList then some (.ok (.And ap1 ap2))
    else if op = "||".toList then some (.ok (.Or ap1 ap2))
    else some (.error (.UnsupportedOperator (String.mk op)))

/-- AccessPolicy.from_boolean_expression (access_policy.rs, lines 267-362),
with a fuel parameter bounding the recursion depth of the embedding;
`none` means the fuel ran out. -/
def from_boolean_expression_fuel : Nat → List Char → Option (Except Error AccessPolicy)
  | 0, _ => none
  | fuel + 1, input =>
    let b := sanitize_spaces input
    if ¬ containsSub "::".toList b then
      some (.error (.InvalidBooleanExpression (String.mk b)))
    else if b.getD 0 (Char.ofNat 0) = '(' then
      let b1 := b.drop 1
      if b1.count ')' = 0 then
        some (.error (.InvalidBooleanExpression (String.mk b1)))
      else
        match find_next_parenthesis b1 with
        | .error e => some (.error e)
        | .ok matching_closing_parenthesis =>
          match decompose_expression b1 matching_closing_parenthesis with
          | .error e => some (.error e)
          | .ok (left_part, none, _) => from_boolean_expression_fuel fuel left_part
          | .ok (left_part, some op, right_part) =>
            applyOperator op (from_boolean_expression_fuel fuel left_part)
              (from_boolean_expression_fuel fuel (right_part.getD []))
    else
      let or_position := findSub "||".toList b
      let and_position := findSub "&&".toList b
      let position :=
        match or_position, and_position with
        | none, none => 0
        | none, some a => a
        | some o, none => o
        | some o, some a => min o a
      if position = 0 then
        let attribute_vec := splitOnSub "::".toList b
        if attribute_vec.length ≠ 2 ∨ attribute_vec.getD 0 [] = [] ∨
            attribute_vec.getD 1 [] = [] then
          some (.error (.InvalidBooleanExpression (String.mk b)))
        else
          some (.ok (.Attr
            { axis := String.mk (attribute_vec.getD 0 [])
              name := String.mk (attribute_vec.getD 1 []) }))
      else
        match decompose_expression b position with
        | .error e => some (.error e)
        | .ok (left_part, none, _) => from_boolean_expression_fuel fuel left_part
        | .ok (left_part, some op, right_part) =>
          applyOperator op (from_boolean_expression_fuel fuel left_part)
            (from_boolean_expression_fuel fuel (right_part.getD []))

/-- Top-level parser entry: the fuel bound exceeds the recursion depth,
since every recursive call is on a strictly shorter sanitized string. -/
def from_boolean_expression (boolean_expression : List Char) :
    Option (Except Error AccessPolicy) :=
  from_boolean_expression_fuel (boolean_expression.length + 2) boolean_expression

/-- A one-attribute axis named X, used by concrete witnesses. -/
def axisX1 : PolicyAxis :=
  { name := "X"
    attributes_properties := [{ name := "a", encryption_hint := .Classic }]
    hierarchical := false }

/-- A two-attribute axis also named X, used by concrete witnesses. -/
def axisX2 : PolicyAxis :=
  { name := "X"
    attributes_properties :=
      [{ name := "b", encryption_hint := .Classic },
       { name := "c", encryption_hint := .Classic }]
    hierarchical := false }

/-- An axis listing the same attribute name twice, used by concrete
witnesses for the defensive duplicate-attribute path of add_axis. -/
def axisDup : PolicyAxis :=
  { name := "X"
    attributes_properties :=
      [{ name := "a", encryption_hint := .Classic },
       { name := "a", encryption_hint := .Classic }]
    hierarchical := false }

/-- The spec's hierarchical Security Level example registry, used by
concrete witnesses. -/
def securityLevelPolicy : Policy :=
  { version := .V1
    last_attribute_value := 3
    max_attribute_creations := 100
    axes := [("Security Level",
      { attribute_names := ["Protected", "Confidential", "Top Secret"]
        is_hierarchical := true })]
    attributes :=
      [({ axis := "Security Level", name := "Protected" },
        { values := [1], encryption_hint := .Classic }),
       ({ axis := "Security Level", name := "Confidential" },
        { values := [2], encryption_hint := .Classic }),
       ({ axis := "Security Level", name := "Top Secret" },
        { values := [3], encryption_hint := .Hybridized })] }

/-- A concrete legacy-schema policy, used by concrete witnesses. -/
def legacyExample : LegacyPolicy :=
  { last_attribute_value := 2
    max_attribute_creations := 5
    axes := [("X", { attribute_names := ["a"], is_hierarchical := false })]
    attributes := [({ axis := "X", name := "a" }, [1, 2])] }

theorem alookup_ainsert {α β : Type} [DecidableEq α] (q k : α) (v : β)
    (m : List (α × β)) :
    alookup q (ainsert k v m) = if k = q then some v else alookup q m := by
  induction m with
  | nil => simp [alookup, ainsert]
  | cons kv rest ih =>
    obtain ⟨k0, v0⟩ := kv
    by_cases h0 : k0 = k
    · subst h0
      by_cases hq : k0 = q <;> simp [alookup, ainsert, hq]
    · by_cases hq : k0 = q
      · subst hq
        have hkq : ¬ k = k0 := fun h => h0 h.symm
        simp [alookup, ainsert, h0, hkq]
      · simp [alookup, ainsert, h0, hq, ih]

theorem alookup_map_snd {α β γ : Type} [DecidableEq α] (f : β → γ)
    (m : List (α × β)) (q : α) :
    alookup q (m.map (fun kv => (kv.1, f kv.2))) = (alookup q m).map f := by
  induction m with
  | nil => simp [alookup]
  | cons kv rest ih =>
    obtain ⟨k0, v0⟩ := kv
    by_cases h : k0 = q <;> simp [alookup, h, ih]

theorem flatten_map_singleton {α : Type} (l : List α) :
    (l.map (fun x => [x])).flatten = l := by
  induction l with
  | nil => rfl
  | cons x rest ih => simp [ih]

theorem subAttributes_eq_takeWhile (axis nm : String) (names : List String) :
    subAttributes axis nm names =
      (names.takeWhile (fun n => n != nm)).map
        (fun n => [{ axis := axis, name := n }]) := by
  induction names with
  | nil => simp [subAttributes]
  | cons n rest ih =>
    by_cases h : n = nm <;> simp [subAttributes, h, ih, List.takeWhile_cons]

theorem subAttributes_of_not_mem (axis nm : String) (names : List String)
    (h : nm ∉ names) :
    subAttributes axis nm names =
      names.map (fun n => [{ axis := axis, name := n }]) := by
  induction names with
  | nil => simp [subAttributes]
  | cons n rest ih =>
    rw [List.mem_cons] at h
    push_neg at h
    have hn : ¬ n = nm := fun hh => h.1 hh.symm
    simp [subAttributes, hn, ih h.2]

/-- C8: All is a neutral element for And under combination enumeration: for
every access policy, registry and hierarchy flag, enumerating
And(All, p) and And(p, All) returns exactly the same result (same tuples,
same order, or the same error) as enumerating p alone. -/
theorem and_all_neutral (ap : AccessPolicy) (policy : Policy) (follow : Bool) :
    (AccessPolicy.And .All ap).to_attribute_combinations policy follow =
      ap.to_attribute_combinations policy follow ∧
    (AccessPolicy.And ap .All).to_attribute_combinations policy follow =
      ap.to_attribute_combinations policy follow := by
  constructor
  · cases h : ap.to_attribute_combinations policy follow with
    | ok l =>
      simp [AccessPolicy.to_attribute_combinations, h, Bind.bind, Except.bind,
        Pure.pure, Except.pure, flatten_map_singleton]
    | error e =>
      simp [AccessPolicy.to_attribute_combinations, h, Bind.bind, Except.bind]
  · cases h : ap.to_attribute_combinations policy follow with
    | ok l =>
      simp [AccessPolicy.to_attribute_combinations, h, Bind.bind, Except.bind,
        Pure.pure, Except.pure, flatten_map_singleton]
    | error e =>
      simp [AccessPolicy.to_attribute_combinations, h, Bind.bind, Except.bind]

/-- C3: for an attribute of a registered hierarchical axis, enumerating
Attr(a) with follow_hierarchy set emits the tuple containing a first, then
one singleton tuple per attribute name stored before a in the axis's
attribute order, in that stored order. -/
theorem attr_combinations_hierarchical (policy : Policy) (a : Attribute)
    (params : PolicyAxesParameters)
    (hax : alookup a.axis policy.axes = some params)
    (hh : params.is_hierarchical = true) :
    (AccessPolicy.Attr a).to_attribute_combinations policy true =
      .ok ([a] :: (params.attribute_names.takeWhile (fun n => n != a.name)).map
        (fun n => [{ axis := a.axis, name := n }])) := by
  simp [AccessPolicy.to_attribute_combinations, hax, hh, subAttributes_eq_takeWhile]

/-- C3 witness: the spec's Security Level example, resolved to exactly
the tuples for Top Secret, Protected, Confidential in that order. -/
theorem attr_combinations_hierarchical_witness :
    (AccessPolicy.Attr { axis := "Security Level", name := "Top Secret" }).to_attribute_combinations
        securityLevelPolicy true =
      .ok [[{ axis := "Security Level", name := "Top Secret" }],
        [{ axis := "Security Level", name := "Protected" }],
        [{ axis := "Security Level", name := "Confidential" }]] := by
  have h := attr_combinations_hierarchical securityLevelPolicy
    { axis := "Security Level", name := "Top Secret" }
    { attribute_names := ["Protected", "Confidential", "Top Secret"]
      is_hierarchical := true }
    (by decide) rfl
  exact h.trans (congrArg Except.ok (by decide))

/-- C10: if the attribute's axis is registered but its name is not in the
axis's stored name list, enumeration does not fail: it returns the tuple
for the attribute itself and, when the axis is hierarchical and the
hierarchy is followed, one singleton tuple per stored attribute name. -/
theorem attr_combinations_unknown_name (policy : Policy) (a : Attribute)
    (params : PolicyAxesParameters) (follow : Bool)
    (hax : alookup a.axis policy.axes = some params)
    (hname : a.name ∉ params.attribute_names) :
    (AccessPolicy.Attr a).to_attribute_combinations policy follow =
      .ok ([a] :: (if params.is_hierarchical && follow then
          params.attribute_names.map (fun n => [{ axis := a.axis, name := n }])
        else [])) := by
  simp [AccessPolicy.to_attribute_combinations, hax,
    subAttributes_of_not_mem a.axis a.name params.attribute_names hname]

/-- C10 witness: an attribute name absent from the hierarchical Security
Level axis resolves to its own tuple followed by one singleton per stored
name. -/
theorem attr_combinations_unknown_name_witness :
    (AccessPolicy.Attr { axis := "Security Level", name := "zz" }).to_attribute_combinations
        securityLevelPolicy true =
      .ok [[{ axis := "Security Level", name := "zz" }],
        [{ axis := "Security Level", name := "Protected" }],
        [{ axis := "Security Level", name := "Confidential" }],
        [{ axis := "Security Level", name := "Top Secret" }]] := by
  have h := attr_combinations_unknown_name securityLevelPolicy
    { axis := "Security Level", name := "zz" }
    { attribute_names := ["Protected", "Confidential", "Top Secret"]
      is_hierarchical := true }
    true (by decide) (by decide)
  exact h.trans (congrArg Except.ok (by decide))

/-- C7: parse_and_convert tries the current schema first; on failure it
tries the legacy schema and, on legacy success, upgrades by stamping V1,
defaulting every hint to Classic and carrying over counter, ceiling, axes
and histories; when both decodes fail, the current-schema error is
returned. -/
theorem parse_and_convert_spec
    (decodePolicy : List Nat → Except String Policy)
    (decodeLegacy : List Nat → Except String LegacyPolicy)
    (bytes : List Nat) :
    (∀ p, decodePolicy bytes = .ok p →
      Policy.parse_and_convert decodePolicy decodeLegacy bytes = .ok p) ∧
    (∀ e lp, decodePolicy bytes = .error e → decodeLegacy bytes = .ok lp →
      Policy.parse_and_convert decodePolicy decodeLegacy bytes = .ok
        { version := .V1
          last_attribute_value := lp.last_attribute_value
          max_attribute_creations := lp.max_attribute_creations
          axes := lp.axes
          attributes := lp.attributes.map
            (fun kv => (kv.1, { values := kv.2, encryption_hint := .Classic })) } ∧
      (∀ a vs, alookup a lp.attributes = some vs →
        alookup a (lp.attributes.map
          (fun kv => (kv.1,
            ({ values := kv.2, encryption_hint := .Classic } :
              PolicyAttributesParameters)))) =
          some { values := vs, encryption_hint := .Classic })) ∧
    (∀ e e', decodePolicy bytes = .error e → decodeLegacy bytes = .error e' →
      Policy.parse_and_convert decodePolicy decodeLegacy bytes =
        .error (.DeserializationError e)) := by
  refine ⟨?_, ?_, ?_⟩
  · intro p h
    simp [Policy.parse_and_convert, h]
  · intro e lp h1 h2
    refine ⟨by simp [Policy.parse_and_convert, h1, h2], ?_⟩
    intro a vs hv
    rw [alookup_map_snd
      (fun vals => ({ values := vals, encryption_hint := .Classic } :
        PolicyAttributesParameters)) lp.attributes a, hv]
    rfl
  · intro e e' h1 h2
    simp [Policy.parse_and_convert, h1, h2]

/-- C7 witness: with a failing current-schema decoder, a successful legacy
decode upgrades the concrete legacy example, and a failing legacy decode
surfaces the current-schema error. -/
theorem parse_and_convert_spec_witness :
    Policy.parse_and_convert (fun _ => .error "bad current")
        (fun _ => .ok legacyExample) [] =
      .ok { version := .V1
            last_attribute_value := 2
            max_attribute_creations := 5
            axes := [("X", { attribute_names := ["a"], is_hierarchical := false })]
            attributes := [({ axis := "X", name := "a" },
              { values := [1, 2], encryption_hint := .Classic })] } ∧
    Policy.parse_and_convert (fun _ => .error "bad current")
        (fun _ => .error "bad legacy") [] =
      .error (.DeserializationError "bad current") := by
  constructor
  · have h := ((parse_and_convert_spec (fun _ => .error "bad current")
      (fun _ => .ok legacyExample) []).2.1 "bad current" legacyExample rfl rfl).1
    exact h.trans (congrArg Except.ok (by decide))
  · exact (parse_and_convert_spec (fun _ => .error "bad current")
      (fun _ => .error "bad legacy") []).2.2 "bad current" "bad legacy" rfl rfl

/-- C5 counterexample: with capacity exhausted (1 of 1 slots used), re-adding
an axis named X — whose name is present in the registry — with two
attributes fails with CapacityOverflow, not ExistingPolicy: the capacity
check runs before the duplicate-name check. -/
theorem add_axis_existing_name_counterexample :
    (alookup axisX2.name (((Policy.new 1).add_axis axisX1).1.axes)).isSome = true ∧
    (((Policy.new 1).add_axis axisX1).1.add_axis axisX2).2 =
      .error .CapacityOverflow := by decide

/-- C5 amended: re-adding an axis whose name is present always fails and
leaves the policy (hence last_attribute_value) unchanged; the error is
ExistingPolicy when the new axis's attribute count fits in the remaining
capacity, but CapacityOverflow takes precedence when it does not. -/
theorem add_axis_existing_name (p : Policy) (axis : PolicyAxis)
    (hname : (alookup axis.name p.axes).isSome = true) :
    (p.add_axis axis).1 = p ∧
    (axis.attributes_properties.length ≤
        p.max_attribute_creations - p.last_attribute_value →
      (p.add_axis axis).2 = .error (.ExistingPolicy axis.name)) ∧
    (axis.attributes_properties.length >
        p.max_attribute_creations - p.last_attribute_value →
      (p.add_axis axis).2 = .error .CapacityOverflow) := by
  by_cases hc : axis.attributes_properties.length >
      p.max_attribute_creations - p.last_attribute_value
  · exact ⟨by simp [Policy.add_axis, hc], fun h => absurd hc (by omega),
      fun _ => by simp [Policy.add_axis, hc]⟩
  · exact ⟨by simp [Policy.add_axis, hc, hname],
      fun _ => by simp [Policy.add_axis, hc, hname], fun h => absurd h hc⟩

/-- C5 witness: the amended statement at the concrete over-capacity
re-addition of axis X. -/
theorem add_axis_existing_name_witness :
    ((((Policy.new 1).add_axis axisX1).1.add_axis axisX2).1 =
      ((Policy.new 1).add_axis axisX1).1) ∧
    (((Policy.new 1).add_axis axisX1).1.add_axis axisX2).2 =
      .error .CapacityOverflow := by
  have h := add_axis_existing_name (((Policy.new 1).add_axis axisX1).1) axisX2
    (by decide)
  exact ⟨h.1, h.2.2 (by decide)⟩

/-- C6 counterexample: add_axis is not atomic on the defensive
duplicate-attribute error: adding an axis that lists attribute a twice
fails with ExistingPolicy, yet the returned state differs from the initial
one — the counter was incremented twice and the first copy of the
attribute stays registered. -/
theorem add_axis_atomicity_counterexample :
    ((Policy.new 10).add_axis axisDup).2 = .error (.ExistingPolicy "X::a") ∧
    ((Policy.new 10).add_axis axisDup).1 ≠ Policy.new 10 ∧
    ((Policy.new 10).add_axis axisDup).1.last_attribute_value = 2 ∧
    alookup { axis := "X", name := "a" }
        ((Policy.new 10).add_axis axisDup).1.attributes =
      some { values := [1], encryption_hint := .Classic } := by decide

/-- C6 amended: add_axis leaves the policy exactly unchanged when it fails
with CapacityOverflow or with ExistingPolicy for a duplicate axis name; on
the defensive duplicate-attribute-within-axis error the axes map is still
unchanged, but the counter and the attribute map may retain partial
updates. -/
theorem add_axis_error_state (p : Policy) (axis : PolicyAxis) :
    (∀ e, (p.add_axis axis).2 = .error e → (p.add_axis axis).1.axes = p.axes) ∧
    (axis.attributes_properties.length >
        p.max_attribute_creations - p.last_attribute_value →
      p.add_axis axis = (p, .error .CapacityOverflow)) ∧
    ((alookup axis.name p.axes).isSome = true →
      axis.attributes_properties.length ≤
        p.max_attribute_creations - p.last_attribute_value →
      p.add_axis axis = (p, .error (.ExistingPolicy axis.name))) := by
  refine ⟨?_, ?_, ?_⟩
  · intro e he
    by_cases hc : axis.attributes_properties.length >
        p.max_attribute_creations - p.last_attribute_value
    · simp [Policy.add_axis, hc]
    · by_cases hn : (alookup axis.name p.axes).isSome
      · simp [Policy.add_axis, hc, hn]
      · cases hl : addAxisLoop axis.name axis.attributes_properties
            p.last_attribute_value p.attributes [] with
        | error st => simp [Policy.add_axis, hc, hn, hl]
        | ok st =>
          exfalso
          simp [Policy.add_axis, hc, hn, hl] at he
  · intro h
    simp [Policy.add_axis, h]
  · intro hn hc
    have hc' : ¬ axis.attributes_properties.length >
        p.max_attribute_creations - p.last_attribute_value := by omega
    simp [Policy.add_axis, hc', hn]

/-- C6 witness: the amended statement at concrete inputs: the axes map is
unchanged after the duplicate-attribute failure, and an over-capacity
addition returns the policy untouched. -/
theorem add_axis_error_state_witness :
    ((Policy.new 10).add_axis axisDup).1.axes = (Policy.new 10).axes ∧
    (Policy.new 1).add_axis axisX2 = (Policy.new 1, .error .CapacityOverflow) := by
  constructor
  · exact (add_axis_error_state (Policy.new 10) axisDup).1
      (.ExistingPolicy "X::a") (by decide)
  · exact (add_axis_error_state (Policy.new 1) axisX2).2.1 (by decide)

/-- Well-formedness of the attribute map relative to the slot counter:
every registered history is non-empty, strictly increasing, bounded by the
counter, and slot values are globally unique across all attributes and all
history positions. -/
def AttrsOk (last : Nat) (attrs : List (Attribute × PolicyAttributesParameters)) : Prop :=
  (∀ a params, alookup a attrs = some params →
    params.values ≠ [] ∧ List.Pairwise (· < ·) params.values ∧
    ∀ v ∈ params.values, v ≤ last) ∧
  (∀ a b pa pb, alookup a attrs = some pa → alookup b attrs = some pb →
    ∀ i j, i < pa.values.length → j < pb.values.length →
      pa.values.getD i 0 = pb.values.getD j 0 → a = b ∧ i = j)

/-- The policy invariant: the counter never exceeds the ceiling and the
attribute map is well formed with respect to the counter. -/
def PolicyInv (p : Policy) : Prop :=
  p.last_attribute_value ≤ p.max_attribute_creations ∧
  AttrsOk p.last_attribute_value p.attributes

theorem getD_of_lt (l : List Nat) (i : Nat) (h : i < l.length) :
    l.getD i 0 = l[i] := by
  rw [List.getD_eq_getElem?_getD, List.getElem?_eq_getElem h]
  rfl

theorem getD_mem (l : List Nat) (i : Nat) (h : i < l.length) : l.getD i 0 ∈ l := by
  rw [getD_of_lt l i h]
  exact List.getElem_mem h

theorem getD_append_lt (L L' : List Nat) (i : Nat) (h : i < L.length) :
    (L ++ L').getD i 0 = L.getD i 0 := by
  rw [List.getD_eq_getElem?_getD, List.getD_eq_getElem?_getD, List.getElem?_append,
    if_pos h]

theorem getD_append_length (L : List Nat) (x : Nat) :
    (L ++ [x]).getD L.length 0 = x := by
  rw [List.getD_eq_getElem?_getD, List.getElem?_concat_length]
  rfl

theorem pairwise_getD_inj (l : List Nat) (hp : List.Pairwise (· < ·) l)
    (i j : Nat) (hi : i < l.length) (hj : j < l.length)
    (he : l.getD i 0 = l.getD j 0) : i = j := by
  rw [getD_of_lt l i hi, getD_of_lt l j hj] at he
  rcases Nat.lt_trichotomy i j with h | h | h
  · exact absurd he (Nat.ne_of_lt (List.pairwise_iff_getElem.mp hp i j hi hj h))
  · exact h
  · exact absurd he.symm (Nat.ne_of_lt (List.pairwise_iff_getElem.mp hp j i hj hi h))

theorem attrsOk_mono {last last' : Nat}
    {attrs : List (Attribute × PolicyAttributesParameters)}
    (h : AttrsOk last attrs) (hle : last ≤ last') : AttrsOk last' attrs := by
  refine ⟨fun a params hp => ?_, h.2⟩
  obtain ⟨h1, h2, h3⟩ := h.1 a params hp
  exact ⟨h1, h2, fun v hv => le_trans (h3 v hv) hle⟩

theorem attrsOk_insert_fresh {last : Nat}
    {attrs : List (Attribute × PolicyAttributesParameters)}
    (h : AttrsOk last attrs) (a : Attribute) (hint : EncryptionHint)
    (_hnone : alookup a attrs = none) :
    AttrsOk (last + 1)
      (ainsert a { values := [last + 1], encryption_hint := hint } attrs) := by
  constructor
  · intro b pb hb
    rw [alookup_ainsert] at hb
    by_cases hba : a = b
    · rw [if_pos hba] at hb
      cases hb
      refine ⟨by simp, by simp, ?_⟩
      intro v hv
      simp at hv
      omega
    · rw [if_neg hba] at hb
      obtain ⟨h1, h2, h3⟩ := h.1 b pb hb
      exact ⟨h1, h2, fun v hv => Nat.le_succ_of_le (h3 v hv)⟩
  · intro b c pb pc hb hc i j hi hj he
    rw [alookup_ainsert] at hb hc
    by_cases hba : a = b <;> by_cases hca : a = c
    · rw [if_pos hba] at hb
      rw [if_pos hca] at hc
      cases hb
      cases hc
      simp at hi hj
      exact ⟨hba ▸ hca, by omega⟩
    · rw [if_pos hba] at hb
      rw [if_neg hca] at hc
      cases hb
      simp at hi
      subst hi
      obtain ⟨-, -, hbd⟩ := h.1 c pc hc
      have hmem := getD_mem pc.values j hj
      have := hbd _ hmem
      have he' : last + 1 = pc.values.getD j 0 := he
      omega
    · rw [if_neg hba] at hb
      rw [if_pos hca] at hc
      cases hc
      simp at hj
      subst hj
      obtain ⟨-, -, hbd⟩ := h.1 b pb hb
      have hmem := getD_mem pb.values i hi
      have := hbd _ hmem
      have he' : pb.values.getD i 0 = last + 1 := he
      omega
    · rw [if_neg hba] at hb
      rw [if_neg hca] at hc
      exact h.2 b c pb pc hb hc i j hi hj he

theorem attrsOk_append_value {last : Nat}
    {attrs : List (Attribute × PolicyAttributesParameters)}
    (h : AttrsOk last attrs) (a : Attribute)
    (params : PolicyAttributesParameters)
    (hsome : alookup a attrs = some params) :
    AttrsOk (last + 1)
      (ainsert a { params with values := params.values ++ [last + 1] } attrs) := by
  obtain ⟨hne, hpw, hbd⟩ := h.1 a params hsome
  constructor
  · intro b pb hb
    rw [alookup_ainsert] at hb
    by_cases hba : a = b
    · rw [if_pos hba] at hb
      cases hb
      refine ⟨by simp, ?_, ?_⟩
      · rw [List.pairwise_append]
        refine ⟨hpw, by simp, ?_⟩
        intro x hx y hy
        simp at hy
        subst hy
        exact Nat.lt_succ_of_le (hbd x hx)
      · intro v hv
        rcases List.mem_append.mp hv with hv | hv
        · exact Nat.le_succ_of_le (hbd v hv)
        · simp at hv
          omega
    · rw [if_neg hba] at hb
      obtain ⟨h1, h2, h3⟩ := h.1 b pb hb
      exact ⟨h1, h2, fun v hv => Nat.le_succ_of_le (h3 v hv)⟩
  · intro b c pb pc hb hc i j hi hj he
    rw [alookup_ainsert] at hb hc
    by_cases hba : a = b <;> by_cases hca : a = c
    · rw [if_pos hba] at hb
      rw [if_pos hca] at hc
      cases hb
      cases hc
      simp at hi hj
      refine ⟨hba ▸ hca, ?_⟩
      rcases Nat.lt_or_ge i params.values.length with hi' | hi' <;>
        rcases Nat.lt_or_ge j params.values.length with hj' | hj'
      · rw [getD_append_lt _ _ _ hi', getD_append_lt _ _ _ hj'] at he
        exact (h.2 a a params params hsome hsome i j hi' hj' he).2
      · have hj'' : j = params.values.length := by omega
        subst hj''
        rw [getD_append_lt _ _ _ hi', getD_append_length] at he
        have := hbd _ (getD_mem params.values i hi')
        omega
      · have hi'' : i = params.values.length := by omega
        subst hi''
        rw [getD_append_length, getD_append_lt _ _ _ hj'] at he
        have := hbd _ (getD_mem params.values j hj')
        omega
      · omega
    · rw [if_pos hba] at hb
      rw [if_neg hca] at hc
      cases hb
      simp at hi
      obtain ⟨-, -, hbd'⟩ := h.1 c pc hc
      have hcmem := hbd' _ (getD_mem pc.values j hj)
      rcases Nat.lt_or_ge i params.values.length with hi' | hi'
      · rw [getD_append_lt _ _ _ hi'] at he
        exact absurd (h.2 a c params pc hsome hc i j hi' hj he).1 hca
      · have hi'' : i = params.values.length := by omega
        subst hi''
        rw [getD_append_length] at he
        omega
    · rw [if_neg hba] at hb
      rw [if_pos hca] at hc
      cases hc
      simp at hj
      obtain ⟨-, -, hbd'⟩ := h.1 b pb hb
      have hbmem := hbd' _ (getD_mem pb.values i hi)
      rcases Nat.lt_or_ge j params.values.length with hj' | hj'
      · rw [getD_append_lt _ _ _ hj'] at he
        exact absurd (h.2 b a pb params hb hsome i j hi hj' he).1
          (fun hx => hba hx.symm)
      · have hj'' : j = params.values.length := by omega
        subst hj''
        rw [getD_append_length] at he
        omega
    · rw [if_neg hba] at hb
      rw [if_neg hca] at hc
      exact h.2 b c pb pc hb hc i j hi hj he

/-- State (counter, attribute map) carried by either outcome of the
add_axis registration loop. -/
def loopState
    (r : Except (Nat × List (Attribute × PolicyAttributesParameters) × Attribute)
      (Nat × List (Attribute × PolicyAttributesParameters) × List String)) :
    Nat × List (Attribute × PolicyAttributesParameters) :=
  match r with
  | .ok (l, a, _) => (l, a)
  | .error (l, a, _) => (l, a)

theorem addAxisLoop_last_mono (axisName : String)
    (props : List AxisAttributePorperties) :
    ∀ (last : Nat) attrs names,
      last ≤ (loopState (addAxisLoop axisName props last attrs names)).1 := by
  induction props with
  | nil =>
    intro last attrs names
    simp [addAxisLoop, loopState]
  | cons properties rest ih =>
    intro last attrs names
    simp only [addAxisLoop]
    by_cases hdup : (alookup
        ({ axis := axisName, name := properties.name } : Attribute) attrs).isSome
    · simp [hdup, loopState]
    · simp only [hdup, if_false, Bool.false_eq_true]
      exact le_trans (Nat.le_succ last) (ih (last + 1) _ _)

theorem addAxisLoop_state (axisName : String)
    (props : List AxisAttributePorperties) :
    ∀ (last : Nat) attrs names, AttrsOk last attrs →
      AttrsOk (loopState (addAxisLoop axisName props last attrs names)).1
          (loopState (addAxisLoop axisName props last attrs names)).2 ∧
        (loopState (addAxisLoop axisName props last attrs names)).1 ≤
          last + props.length := by
  induction props with
  | nil =>
    intro last attrs names h
    simpa [addAxisLoop, loopState] using h
  | cons properties rest ih =>
    intro last attrs names h
    simp only [addAxisLoop]
    by_cases hdup : (alookup
        ({ axis := axisName, name := properties.name } : Attribute) attrs).isSome
    · simp only [hdup, if_true]
      exact ⟨attrsOk_mono h (Nat.le_succ last),
        by simp only [loopState, List.length_cons]; omega⟩
    · simp only [hdup, if_false, Bool.false_eq_true]
      have hnone : alookup ({ axis := axisName, name := properties.name } : Attribute)
          attrs = none := by
        cases hx : alookup ({ axis := axisName, name := properties.name } : Attribute)
            attrs with
        | none => rfl
        | some v => rw [hx] at hdup; simp at hdup
      have h' := attrsOk_insert_fresh h _ properties.encryption_hint hnone
      have hr := ih (last + 1) _ (names ++ [properties.name]) h'
      exact ⟨hr.1, by have := hr.2; simp at this ⊢; omega⟩

theorem add_axis_last_mono (p : Policy) (axis : PolicyAxis) :
    p.last_attribute_value ≤ (p.add_axis axis).1.last_attribute_value := by
  by_cases hc : axis.attributes_properties.length >
      p.max_attribute_creations - p.last_attribute_value
  · simp [Policy.add_axis, hc]
  · by_cases hn : (alookup axis.name p.axes).isSome
    · simp [Policy.add_axis, hc, hn]
    · have hm := addAxisLoop_last_mono axis.name axis.attributes_properties
        p.last_attribute_value p.attributes []
      cases hl : addAxisLoop axis.name axis.attributes_properties
          p.last_attribute_value p.attributes [] with
      | error st =>
        obtain ⟨l', a', at'⟩ := st
        rw [hl] at hm
        simpa [Policy.add_axis, hc, hn, hl, loopState] using hm
      | ok st =>
        obtain ⟨l', a', ns⟩ := st
        rw [hl] at hm
        simpa [Policy.add_axis, hc, hn, hl, loopState] using hm

theorem rotate_last_mono (p : Policy) (attr : Attribute) :
    p.last_attribute_value ≤ (p.rotate attr).1.last_attribute_value := by
  by_cases hcap : p.last_attribute_value = p.max_attribute_creations
  · simp [Policy.rotate, hcap]
  · cases hl : alookup attr p.attributes with
    | none => simp [Policy.rotate, hcap, hl]
    | some params => simp [Policy.rotate, hcap, hl]

theorem policyInv_new (n : Nat) : PolicyInv (Policy.new n) := by
  refine ⟨Nat.zero_le n, ?_, ?_⟩
  · intro a params h
    simp [Policy.new, alookup] at h
  · intro a b pa pb ha hb
    simp [Policy.new, alookup] at ha

theorem policyInv_add_axis (p : Policy) (axis : PolicyAxis)
    (h : PolicyInv p) : PolicyInv (p.add_axis axis).1 := by
  by_cases hc : axis.attributes_properties.length >
      p.max_attribute_creations - p.last_attribute_value
  · simpa [Policy.add_axis, hc] using h
  · by_cases hn : (alookup axis.name p.axes).isSome
    · simpa [Policy.add_axis, hc, hn] using h
    · have hloop := addAxisLoop_state axis.name axis.attributes_properties
        p.last_attribute_value p.attributes [] h.2
      cases hl : addAxisLoop axis.name axis.attributes_properties
          p.last_attribute_value p.attributes [] with
      | error st =>
        obtain ⟨l', a', at'⟩ := st
        rw [hl] at hloop
        simp only [loopState] at hloop
        simp only [Policy.add_axis, hc, hn, hl]
        have hmax := h.1
        exact ⟨by simp; omega, by simpa using hloop.1⟩
      | ok st =>
        obtain ⟨l', a', ns⟩ := st
        rw [hl] at hloop
        simp only [loopState] at hloop
        simp only [Policy.add_axis, hc, hn, hl]
        have hmax := h.1
        exact ⟨by simp; omega, by simpa using hloop.1⟩

theorem policyInv_rotate (p : Policy) (attr : Attribute)
    (h : PolicyInv p) : PolicyInv (p.rotate attr).1 := by
  by_cases hcap : p.last_attribute_value = p.max_attribute_creations
  · simpa [Policy.rotate, hcap] using h
  · cases hl : alookup attr p.attributes with
    | none => simpa [Policy.rotate, hcap, hl] using h
    | some params =>
      have hmax := h.1
      refine ⟨by simp [Policy.rotate, hcap, hl]; omega, ?_⟩
      have := attrsOk_append_value h.2 attr params hl
      simpa [Policy.rotate, hcap, hl] using this

theorem reachable_inv {p : Policy} (h : Reachable p) : PolicyInv p := by
  induction h with
  | new n => exact policyInv_new n
  | add axis _ ih => exact policyInv_add_axis _ axis ih
  | rot attr _ ih => exact policyInv_rotate _ attr ih

/-- C1: in every reachable policy state, the slot counter never decreases
across any add_axis or rotate call, every stored slot value is at most the
creation ceiling, and slot values are globally unique: no two
(attribute, history-position) pairs hold the same integer. -/
theorem reachable_slot_invariants (p : Policy) (hp : Reachable p) :
    (∀ axis, p.last_attribute_value ≤ (p.add_axis axis).1.last_attribute_value) ∧
    (∀ attr, p.last_attribute_value ≤ (p.rotate attr).1.last_attribute_value) ∧
    (∀ a params, alookup a p.attributes = some params →
      ∀ v ∈ params.values, v ≤ p.max_attribute_creations) ∧
    (∀ a b pa pb, alookup a p.attributes = some pa →
      alookup b p.attributes = some pb →
      ∀ i j, i < pa.values.length → j < pb.values.length →
        pa.values.getD i 0 = pb.values.getD j 0 → a = b ∧ i = j) := by
  have hinv := reachable_inv hp
  refine ⟨fun axis => add_axis_last_mono p axis,
    fun attr => rotate_last_mono p attr, ?_, hinv.2.2⟩
  intro a params hpar v hv
  exact le_trans ((hinv.2.1 a params hpar).2.2 v hv) hinv.1

/-- C1 witness: the counter monotonicity and slot bound at a concrete
reachable state. -/
theorem reachable_slot_invariants_witness :
    (Policy.new 5).last_attribute_value ≤
      ((Policy.new 5).add_axis axisX1).1.last_attribute_value ∧
    (∀ v ∈ ([1] : List Nat), v ≤ 10) := by
  constructor
  · exact (reachable_slot_invariants (Policy.new 5) (Reachable.new 5)).1 axisX1
  · have h := (reachable_slot_invariants (((Policy.new 10).add_axis axisX1).1)
      (Reachable.add axisX1 (Reachable.new 10))).2.2.1
      { axis := "X", name := "a" } { values := [1], encryption_hint := .Classic }
      (by decide)
    exact h

/-- C9: in every reachable policy state, every registered attribute's value
history is non-empty and strictly increasing in storage order; hence the
access at index length - 1 performed by attribute_current_value is in
bounds and returns the last element, and attribute_values returns the
strictly decreasing most-recent-first reversal of the history. -/
theorem reachable_history_wellformed (p : Policy) (hp : Reachable p)
    (attr : Attribute) (params : PolicyAttributesParameters)
    (h : alookup attr p.attributes = some params) :
    params.values ≠ [] ∧
    List.Pairwise (· < ·) params.values ∧
    params.values.length - 1 < params.values.length ∧
    p.attribute_current_value attr =
      .ok (params.values.getD (params.values.length - 1) 0) ∧
    p.attribute_values attr = .ok params.values.reverse ∧
    List.Pairwise (· > ·) params.values.reverse := by
  have hinv := reachable_inv hp
  obtain ⟨hne, hpw, hbd⟩ := hinv.2.1 attr params h
  have hlen : 0 < params.values.length := List.length_pos.mpr hne
  refine ⟨hne, hpw, by omega, ?_, ?_, ?_⟩
  · simp [Policy.attribute_current_value, h]
  · simp [Policy.attribute_values, h]
  · exact List.pairwise_reverse.mpr hpw

/-- C9 witness: the history well-formedness at a concrete reachable state
with a rotated attribute. -/
theorem reachable_history_wellformed_witness :
    ((((Policy.new 10).add_axis axisX1).1.rotate
        { axis := "X", name := "a" }).1.attribute_values
      { axis := "X", name := "a" }) = .ok [2, 1] := by
  have h := (reachable_history_wellformed
    ((((Policy.new 10).add_axis axisX1).1.rotate { axis := "X", name := "a" }).1)
    (Reachable.rot { axis := "X", name := "a" }
      (Reachable.add axisX1 (Reachable.new 10)))
    { axis := "X", name := "a" }
    { values := [1, 2], encryption_hint := .Classic } (by decide)).2.2.2.2.1
  exact h.trans (congrArg Except.ok (by decide))

/-- C4: rotate fails with CapacityOverflow exactly when the counter equals
the ceiling; otherwise it fails with AttributeNotFound on an unregistered
attribute; otherwise it succeeds and the attribute's history grows by
exactly one slot, the current value strictly increases, and every prior
value remains present. -/
theorem rotate_spec (p : Policy) (hp : Reachable p) (attr : Attribute) :
    (p.last_attribute_value = p.max_attribute_creations →
      p.rotate attr = (p, .error .CapacityOverflow)) ∧
    (p.last_attribute_value ≠ p.max_attribute_creations →
      alookup attr p.attributes = none →
      p.rotate attr = (p, .error (.AttributeNotFound attr.toText))) ∧
    (∀ params, p.last_attribute_value ≠ p.max_attribute_creations →
      alookup attr p.attributes = some params →
      (p.rotate attr).2 = .ok () ∧
      alookup attr (p.rotate attr).1.attributes =
        some { params with values := params.values ++ [p.last_attribute_value + 1] } ∧
      (params.values ++ [p.last_attribute_value + 1]).length =
        params.values.length + 1 ∧
      p.attribute_current_value attr =
        .ok (params.values.getD (params.values.length - 1) 0) ∧
      (p.rotate attr).1.attribute_current_value attr =
        .ok (p.last_attribute_value + 1) ∧
      params.values.getD (params.values.length - 1) 0 <
        p.last_attribute_value + 1 ∧
      (∀ v ∈ params.values, v ∈ params.values ++ [p.last_attribute_value + 1])) := by
  refine ⟨fun h => by simp [Policy.rotate, h],
    fun h hn => by simp [Policy.rotate, h, hn], ?_⟩
  intro params hne hsome
  have hinv := reachable_inv hp
  obtain ⟨hnil, hpw, hbd⟩ := hinv.2.1 attr params hsome
  have hlen : 0 < params.values.length := List.length_pos.mpr hnil
  have hlook : alookup attr (p.rotate attr).1.attributes =
      some { params with values := params.values ++ [p.last_attribute_value + 1] } := by
    simp [Policy.rotate, hne, hsome, alookup_ainsert]
  refine ⟨by simp [Policy.rotate, hne, hsome], hlook, by simp,
    by simp [Policy.attribute_current_value, hsome], ?_, ?_,
    fun v hv => List.mem_append_left _ hv⟩
  · simp only [Policy.attribute_current_value, hlook]
    have hx : (params.values ++ [p.last_attribute_value + 1]).length - 1 =
        params.values.length := by simp
    rw [hx, getD_append_length]
  · have hmem := getD_mem params.values (params.values.length - 1) (by omega)
    exact Nat.lt_succ_of_le (hbd _ hmem)

/-- C4 witness: the three rotate behaviors at concrete reachable states:
capacity failure at the ceiling, unknown-attribute failure, and a
successful rotation. -/
theorem rotate_spec_witness :
    ((Policy.new 1).add_axis axisX1).1.rotate { axis := "X", name := "a" } =
      (((Policy.new 1).add_axis axisX1).1, .error .CapacityOverflow) ∧
    ((Policy.new 10).add_axis axisX1).1.rotate { axis := "X", name := "q" } =
      (((Policy.new 10).add_axis axisX1).1, .error (.AttributeNotFound "X::q")) ∧
    ((((Policy.new 10).add_axis axisX1).1.rotate
        { axis := "X", name := "a" }).2 = .ok ()) := by
  refine ⟨?_, ?_, ?_⟩
  · exact (rotate_spec _ (Reachable.add axisX1 (Reachable.new 1))
      { axis := "X", name := "a" }).1 (by decide)
  · exact ((rotate_spec _ (Reachable.add axisX1 (Reachable.new 10))
      { axis := "X", name := "q" }).2.1 (by decide) (by decide)).trans (by decide)
  · exact ((rotate_spec _ (Reachable.add axisX1 (Reachable.new 10))
      { axis := "X", name := "a" }).2.2
      { values := [1], encryption_hint := .Classic } (by decide) (by decide)).1

theorem findSub_spec (sep : List Char) (xs : List Char) (i : Nat)
    (hsep : sep ≠ []) (h : findSub sep xs = some i) :
    i + sep.length ≤ xs.length ∧ (xs.drop i).take sep.length = sep := by
  induction xs generalizing i with
  | nil => simp [findSub, hsep] at h
  | cons x rest ih =>
    simp only [findSub] at h
    by_cases hpre : List.isPrefixOf sep (x :: rest)
    · rw [if_pos hpre] at h
      cases h
      have hp := List.isPrefixOf_iff_prefix.mp hpre
      constructor
      · simpa using hp.length_le
      · simp only [List.drop_zero]
        exact (List.prefix_iff_eq_take.mp hp).symm
    · rw [if_neg hpre] at h
      obtain ⟨i', hi', rfl⟩ := Option.map_eq_some'.mp h
      have hr := ih i' hi'
      constructor
      · simp only [List.length_cons]
        omega
      · simpa using hr.2

theorem getD_eq_head_of_take_two (xs : List Char) (i : Nat) (c1 c2 : Char)
    (h : (xs.drop i).take 2 = [c1, c2]) : xs.getD i (Char.ofNat 0) = c1 := by
  cases hd : xs.drop i with
  | nil => rw [hd] at h; simp at h
  | cons a t =>
    rw [hd] at h
    simp only [List.take_succ_cons, List.cons.injEq] at h
    obtain ⟨rfl, -⟩ := h
    have h0 := List.getElem?_drop xs i 0
    rw [hd, Nat.add_zero] at h0
    rw [List.getD_eq_getElem?_getD, ← h0]
    simp

set_option maxHeartbeats 1000000 in
/-- C2: on a sanitized expression that does not start with a parenthesis
and contains both operators, the parser makes the textually first operator
the root connective: the left operand is the prefix before it and the
right operand is the entire remainder after the 2-character operator,
each parsed recursively as one sub-expression; in particular
"A::a && B::b || C::c" parses as And(A::a, Or(B::b, C::c)), not with
left-to-right grouping. -/
theorem parser_first_operator_root :
    (∀ (fuel : Nat) (s b : List Char) (i j p : Nat),
      sanitize_spaces s = b →
      containsSub "::".toList b = true →
      b.getD 0 (Char.ofNat 0) ≠ '(' →
      findSub "&&".toList b = some i →
      findSub "||".toList b = some j →
      p = min j i →
      0 < p →
      from_boolean_expression_fuel (fuel + 1) s =
        applyOperator (if p = i then "&&".toList else "||".toList)
          (from_boolean_expression_fuel fuel (b.take p))
          (from_boolean_expression_fuel fuel (b.drop (p + 2)))) ∧
    from_boolean_expression "A::a && B::b || C::c".toList =
      some (.ok (.And (.Attr { axis := "A", name := "a" })
        (.Or (.Attr { axis := "B", name := "b" })
          (.Attr { axis := "C", name := "c" })))) := by
  constructor
  · intro fuel s b i j p hb hcont hfirst hand hor hp hppos
    subst hb
    have hand2 := findSub_spec _ _ _ (by decide) hand
    have hor2 := findSub_spec _ _ _ (by decide) hor
    have hgi : (sanitize_spaces s).getD i (Char.ofNat 0) = '&' :=
      getD_eq_head_of_take_two _ i '&' '&' hand2.2
    have hgj : (sanitize_spaces s).getD j (Char.ofNat 0) = '|' :=
      getD_eq_head_of_take_two _ j '|' '|' hor2.2
    have hpij : p ≤ i ∧ p ≤ j := by
      constructor <;> rw [hp]
      · exact min_le_right j i
      · exact min_le_left j i
    have ha1 : i + 2 ≤ (sanitize_spaces s).length := by
      have hx := hand2.1
      rw [show ("&&".toList : List Char).length = 2 from rfl] at hx
      exact hx
    have hplen : p + 2 ≤ (sanitize_spaces s).length := by
      have := hpij.1
      omega
    have hnc : (sanitize_spaces s).getD p (Char.ofNat 0) ≠ ')' := by
      by_cases hpi2 : p = i
      · rw [hpi2, hgi]; decide
      · have hpj : p = j := by
          rcases min_choice j i with hmm | hmm
          · exact hp.trans hmm
          · exact absurd (hp.trans hmm) hpi2
        rw [hpj, hgj]; decide
    have hdec : decompose_expression (sanitize_spaces s) p =
        .ok ((sanitize_spaces s).take p,
          some (((sanitize_spaces s).drop p).take 2),
          some ((sanitize_spaces s).drop (p + 2))) := by
      have h1 : ¬ p > (sanitize_spaces s).length := by omega
      have h2 : ¬ p = (sanitize_spaces s).length := by omega
      have h3 : ¬ (p + 2 > (sanitize_spaces s).length) := by omega
      simp only [decompose_expression, if_neg h1, if_neg h2, if_neg hnc, if_neg h3]
    have hop : List.take 2 (List.drop p (sanitize_spaces s)) =
        (if p = i then "&&".toList else "||".toList) := by
      by_cases hpi2 : p = i
      · rw [if_pos hpi2, hpi2]
        exact hand2.2
      · have hpj : p = j := by
          rcases min_choice j i with hmm | hmm
          · exact hp.trans hmm
          · exact absurd (hp.trans hmm) hpi2
        rw [if_neg hpi2, hpj]
        exact hor2.2
    simp only [from_boolean_expression_fuel, if_neg (not_not_intro hcont),
      if_neg hfirst, hor, hand, ← hp, if_neg (Nat.pos_iff_ne_zero.mp hppos), hdec,
      Option.getD_some, hop]
  · decide

set_option maxHeartbeats 1000000 in
/-- C2 witness: the general statement instantiated on the concrete
expression: the first operator (the conjunction at position 4) becomes the
root, the prefix before it is the left operand and the whole remainder is
the right operand. -/
theorem parser_first_operator_root_witness :
    from_boolean_expression_fuel 22 "A::a && B::b || C::c".toList =
      applyOperator "&&".toList
        (from_boolean_expression_fuel 21 "A::a".toList)
        (from_boolean_expression_fuel 21 "B::b||C::c".toList) := by
  have h := parser_first_operator_root.1 21 "A::a && B::b || C::c".toList
    "A::a&&B::b||C::c".toList 4 10 4 (by decide) (by decide) (by decide)
    (by decide) (by decide) (by decide) (by decide)
  exact h.trans (by decide)
